import Mathlib

set_option maxRecDepth 200000

/-!
Verification of the yew-playground backend relay service
(`src/services/backend/src/main.rs`) against its specification.

Strings from the Rust code are modelled as `List Char`; `&str`/`String`
methods used by the program (`split`, `trim`, `strip_suffix`, `replace`)
are embedded as executable functions on `List Char` below, each mirroring
the documented semantics of the corresponding Rust standard-library
method.  Fallible operations are modelled with `Option`/`Except`.
-/

namespace YP

/-! ## Character-list primitives mirroring the Rust string methods -/

/-- Embedding of Rust `char::is_whitespace`: the Unicode `White_Space`
code points (9–13, 32, 133, 160, 5760, 8192–8202, 8232, 8233, 8239,
8287, 12288). -/
def isRustWhitespace (c : Char) : Bool :=
  let n := c.toNat
  (9 ≤ n && n ≤ 13) || n == 32 || n == 133 || n == 160 || n == 5760 ||
  (8192 ≤ n && n ≤ 8202) || n == 8232 || n == 8233 || n == 8239 ||
  n == 8287 || n == 12288

/-- Embedding of Rust `str::trim`: remove leading and trailing
whitespace characters. -/
def trimChars (s : List Char) : List Char :=
  ((s.dropWhile isRustWhitespace).reverse.dropWhile isRustWhitespace).reverse

/-- Embedding of Rust `str::strip_suffix` (with a string pattern):
`some` of the text with the suffix removed when the suffix is present,
`none` otherwise. -/
def stripSuffixChar (s suf : List Char) : Option (List Char) :=
  if suf.isSuffixOf s = true then some (s.take (s.length - suf.length)) else none

/-- Index of the first position of `s` at which `pat` occurs
(`pat.isPrefixOf (s.drop i)`), or `none` when `pat` occurs nowhere.
Reference function used to state and prove occurrence properties. -/
def firstOcc (pat : List Char) : List Char → Option Nat
  | [] => if pat.isPrefixOf [] = true then some 0 else none
  | c :: cs =>
    if pat.isPrefixOf (c :: cs) = true then some 0
    else (firstOcc pat cs).map (· + 1)

/-- Prepend a character to the first chunk of a chunk list (helper for
the embedding of `str::split`). -/
def consHead (c : Char) : List (List Char) → List (List Char)
  | [] => [[c]]
  | h :: t => (c :: h) :: t

/-- Fuel-driven worker for the embedding of Rust `str::split` with a
string pattern: scan left to right; at a (non-overlapping, leftmost)
occurrence of `sep` end the current chunk and continue after the
separator.  The fuel is an upper bound on the number of scanning steps;
`splitSub` supplies enough fuel for the whole input. -/
def splitGo (sep : List Char) : Nat → List Char → List (List Char)
  | _, [] => [[]]
  | 0, s => [s]
  | fuel + 1, c :: cs =>
    if sep ≠ [] ∧ sep.isPrefixOf (c :: cs) = true then
      [] :: splitGo sep fuel ((c :: cs).drop sep.length)
    else
      consHead c (splitGo sep fuel cs)

/-- Embedding of Rust `str::split` with a non-empty string pattern:
the list of chunks separated by the non-overlapping, leftmost-first
occurrences of `sep`.  (Rust's `split` with an *empty* pattern yields
empty chunks between all characters; the separator used by the program,
`"export default"`, is non-empty, and on an empty separator this
embedding returns the input as a single chunk instead.) -/
def splitSub (sep s : List Char) : List (List Char) :=
  splitGo sep s.length s

/-- Recursive (fuel-free) reference version of `splitSub`, used for
proofs; `splitGo_eq_splitSpec` shows the two agree. -/
def splitSpec (sep : List Char) : List Char → List (List Char)
  | [] => [[]]
  | c :: cs =>
    if h : sep ≠ [] ∧ sep.isPrefixOf (c :: cs) = true then
      [] :: splitSpec sep ((c :: cs).drop sep.length)
    else
      consHead c (splitSpec sep cs)
termination_by s => s.length
decreasing_by
  · have hpos : 0 < sep.length := List.length_pos.mpr h.1
    simp only [List.length_drop, List.length_cons]
    omega
  · simp only [List.length_cons]
    omega

/-- Fuel-driven worker for the embedding of Rust `str::replace`:
replace every non-overlapping, leftmost-first occurrence of `pat` by
`repl`; the replacement text is never rescanned. -/
def replaceGo (pat repl : List Char) : Nat → List Char → List Char
  | _, [] => []
  | 0, s => s
  | fuel + 1, c :: cs =>
    if pat ≠ [] ∧ pat.isPrefixOf (c :: cs) = true then
      repl ++ replaceGo pat repl fuel ((c :: cs).drop pat.length)
    else
      c :: replaceGo pat repl fuel cs

/-- Embedding of Rust `str::replace` with a non-empty string pattern:
replace every non-overlapping occurrence of `pat` in `s` by `repl`,
scanning left to right.  (Rust's `replace` with an *empty* pattern
interleaves the replacement between characters; both patterns used by
the program are the non-empty markers, and on an empty pattern this
embedding returns the input unchanged instead.) -/
def replaceAll (s pat repl : List Char) : List Char :=
  replaceGo pat repl s.length s

/-- Recursive (fuel-free) reference version of `replaceAll`, used for
proofs; `replaceGo_eq_replaceSpec` shows the two agree. -/
def replaceSpec (pat repl : List Char) : List Char → List Char
  | [] => []
  | c :: cs =>
    if h : pat ≠ [] ∧ pat.isPrefixOf (c :: cs) = true then
      repl ++ replaceSpec pat repl ((c :: cs).drop pat.length)
    else
      c :: replaceSpec pat repl cs
termination_by s => s.length
decreasing_by
  · have hpos : 0 < pat.length := List.length_pos.mpr h.1
    simp only [List.length_drop, List.length_cons]
    omega
  · simp only [List.length_cons]
    omega

/-- Number of replacements performed by `replaceSpec` (equivalently, by
`replaceAll`): the number of non-overlapping, leftmost-first occurrences
of `pat` in `s`.  Used to account for the length of a replacement
result. -/
def countRepl (pat : List Char) : List Char → Nat
  | [] => 0
  | c :: cs =>
    if h : pat ≠ [] ∧ pat.isPrefixOf (c :: cs) = true then
      1 + countRepl pat ((c :: cs).drop pat.length)
    else
      countRepl pat cs
termination_by s => s.length
decreasing_by
  · have hpos : 0 < pat.length := List.length_pos.mpr h.1
    simp only [List.length_drop, List.length_cons]
    omega
  · simp only [List.length_cons]
    omega

/-- Number of positions of `s` at which `pat` occurs. -/
def countOcc (pat s : List Char) : Nat :=
  ((List.range (s.length + 1)).filter fun i => pat.isPrefixOf (s.drop i)).length

/-- Decimal rendering of a byte value, as produced by Rust's `Debug`
formatting of `u8`. -/
def fmtNat (n : Nat) : List Char :=
  Nat.toDigits 10 n

/-- Embedding of Rust `Debug` formatting (`{:?}`) of a `Vec<u8>`:
`[b1, b2, ...]` with comma-space separators. -/
def fmtWasm (wasm : List Nat) : List Char :=
  '[' :: (List.intercalate ", ".data (wasm.map fmtNat)) ++ [']']

/-! ## Data model of `main.rs` -/

/-- The `common::Response` enum as matched by `run` in `main.rs`:
either a successful compilation (`Output { index_html, js, wasm }`, the
`index_html` field being unused by the assembler) or a compile error
carrying a message.  Byte vectors (`Vec<u8>`) are modelled as
`List Nat`. -/
inductive Response where
  | Output (index_html js : List Char) (wasm : List Nat)
  | CompileError (msg : List Char)
deriving DecidableEq

/-- The `errors::ApiError` variants used by `run` in `main.rs`:
`Unknown` wraps an `anyhow` error (modelled by its message text) and
`BsonDeserializeError` wraps a BSON decoding error.  The specification
calls the `Unknown`-wrapped assembly failure `MalformedScriptError`,
the `Unknown`-wrapped non-success status failure `BackendError`, and
the `BsonDeserializeError` failure `DecodeError`. -/
inductive ApiError where
  | Unknown (msg : List Char)
  | BsonDeserializeError (msg : List Char)
deriving DecidableEq

/-! ## Constants of `main.rs` -/

/-- The `INDEX_HTML` template constant of `main.rs` (the raw-string
literal, including its leading and trailing newline). -/
def INDEX_HTML : List Char :=
  ("\n<!doctype html>\n<html lang=\"en\">\n<head>\n    <meta charset=\"UTF-8\">\n    <meta name=\"viewport\" content=\"width=device-width, user-scalable=no, initial-scale=1.0, maximum-scale=1.0, minimum-scale=1.0\">\n    <meta http-equiv=\"X-UA-Compatible\" content=\"ie=edge\">\n    <title>Document</title>\n</head>\n<body>\n    <script type=\"module\">\n    /*JS_GOES_HERE*/\n    /*INIT_GOES_HERE*/\n    </script>\n</body>\n</html>\n").data

/-- The script-substitution marker of the template. -/
def jsMarker : List Char := "/*JS_GOES_HERE*/".data

/-- The part of `INDEX_HTML` before the script marker
(`tmplA_append_eq` below proves the decomposition). -/
def tmplA : List Char :=
  ("\n<!doctype html>\n<html lang=\"en\">\n<head>\n    <meta charset=\"UTF-8\">\n    <meta name=\"viewport\" content=\"width=device-width, user-scalable=no, initial-scale=1.0, maximum-scale=1.0, minimum-scale=1.0\">\n    <meta http-equiv=\"X-UA-Compatible\" content=\"ie=edge\">\n    <title>Document</title>\n</head>\n<body>\n    <script type=\"module\">\n    ").data

/-- The part of `INDEX_HTML` between the script marker and the
initialization marker. -/
def tmplMid : List Char := "\n    ".data

/-- The part of `INDEX_HTML` after the initialization marker. -/
def tmplEnd : List Char := "\n    </script>\n</body>\n</html>\n".data

/-- The initialization-substitution marker of the template. -/
def initMarker : List Char := "/*INIT_GOES_HERE*/".data

/-- The literal marker preceding a default-export declaration, searched
for by the assembler (`js.split("export default")`). -/
def exportDefaultMarker : List Char := "export default".data

/-- Message of the `anyhow!` error returned when no entry point is
found (the specification's `MalformedScriptError`). -/
def malformedScriptMsg : List Char :=
  "failed to find init function as default export in js".data

/-! ## The response-assembly pipeline of `run` -/

/-- Embedding of the entry-point extraction in `run`:
`js.split("export default").nth(1).and_then(|it| it.trim().strip_suffix(";"))`. -/
def extractInitFn (js : List Char) : Option (List Char) :=
  ((splitSub exportDefaultMarker js)[1]?).bind
    fun it => stripSuffixChar (trimChars it) ";".data

/-- Embedding of the initialization expression built by `run`:
`format!("{}((new Int8Array({:?})).buffer)", init_fn, wasm)`. -/
def initExpr (initFn : List Char) (wasm : List Nat) : List Char :=
  initFn ++ "((new Int8Array(".data ++ fmtWasm wasm ++ ")).buffer)".data

/-- Embedding of the `match run_response { ... }` tail of `run`: the
response assembler.  On `Output`, extract the entry point, substitute
the script for the script marker of the template, then substitute the
initialization expression for the initialization marker; fail with the
`MalformedScriptError` when no entry point is found.  On
`CompileError`, return the message as the HTML body. -/
def assemble : Response → Except ApiError (List Char)
  | .Output _ js wasm =>
    match extractInitFn js with
    | some initFn =>
      let indexHtml := replaceAll INDEX_HTML jsMarker js
      let init := initExpr initFn wasm
      let indexHtml2 := replaceAll indexHtml initMarker init
      .ok indexHtml2
    | none => .error (.Unknown malformedScriptMsg)
  | .CompileError e => .ok e

/-! ## The reply-handling phase of `run` (the Relay Client) -/

/-- Abstraction of the `reqwest` reply obtained by `run` from the
compiler service: the success flag of the status, and the results of
the fallible body reads `res.text()` and `res.bytes()` (errors carry
the underlying transport message). -/
structure CompilerReply where
  statusOk : Bool
  textBody : Except (List Char) (List Char)
  bytesBody : Except (List Char) (List Nat)

/-- Outcome of the `run` handler after the reply is received: an HTML
document, a typed `ApiError`, or a panic of the handler task (from an
`unwrap` on a failed operation). -/
inductive RunOutcome where
  | ok (html : List Char)
  | err (e : ApiError)
  | panicked
deriving DecidableEq

/-- Message of the `anyhow!` error returned on a non-success status:
`"Compiler service returned an error: {body text}"`. -/
def compilerErrMsg (t : List Char) : List Char :=
  "Compiler service returned an error: ".data ++ t

/-- Embedding of `run` from the point at which the compiler service's
reply is available (`let status = res.status(); ...`).  The BSON
decoder `bson::from_slice` is an external library function and is
passed as the parameter `dec` (errors carry the decoder's message).
On a non-success status the body text is read and `unwrap`ped — a
failed read panics; on success the bytes are read (a failure becomes
`ApiError::Unknown`), decoded (a failure becomes
`ApiError::BsonDeserializeError`), and the decoded response is
assembled. -/
def handleReply (dec : List Nat → Except (List Char) Response)
    (r : CompilerReply) : RunOutcome :=
  if r.statusOk = false then
    match r.textBody with
    | .ok t => .err (.Unknown (compilerErrMsg t))
    | .error _ => .panicked
  else
    match r.bytesBody with
    | .error e => .err (.Unknown e)
    | .ok bytes =>
      match dec bytes with
      | .error e => .err (.BsonDeserializeError e)
      | .ok resp =>
        match assemble resp with
        | .ok html => .ok html
        | .error e => .err e

/-! ## Configuration (the `lazy_static` block and `main`) -/

/-- The process environment, restricted to the two variables the
program reads. -/
structure Env where
  port : Option (List Char)
  compilerUrl : Option (List Char)

/-- Embedding of Rust `u16::from_str` as used by
`it.parse::<u16>().ok()`: an optional leading `+`, then one or more
ASCII digits, value at most 65535; anything else fails. -/
def parseU16 (s : List Char) : Option Nat :=
  let digits := match s with
    | '+' :: rest => rest
    | _ => s
  if digits = [] then none
  else if digits.all (·.isDigit) = false then none
  else
    let v := digits.foldl (fun acc c => acc * 10 + (c.toNat - 48)) 0
    if v ≤ 65535 then some v else none

/-- Value of the `PORT` lazy static:
`std::env::var("PORT").ok().and_then(|it| it.parse().ok()).unwrap_or(3000)`. -/
def PORT (env : Env) : Nat :=
  (env.port.bind parseU16).getD 3000

/-- Value of the `COMPILER_URL` lazy static:
`std::env::var("COMPILER_URL").expect("COMPILER_URL must be set")` —
the `expect` panics (modelled as `Except.error` with the panic
message) when the variable is absent. -/
def COMPILER_URL (env : Env) : Except (List Char) (List Char) :=
  match env.compilerUrl with
  | some u => .ok u
  | none => .error "COMPILER_URL must be set".data

/-- Embedding of the startup phase of `main` (everything before
`axum::Server::bind(...).serve(...)`).  The statics declared with
`lazy_static!` are initialized at their first dereference, and `main`
dereferences only `PORT` (in `SocketAddr::new("0.0.0.0".parse().unwrap(), *PORT)`);
`COMPILER_URL` is first dereferenced inside the `run` request handler.
Startup therefore evaluates `PORT` and nothing else: it returns the
port the listener binds, and it cannot fail on account of the
environment. -/
def mainStartup (env : Env) : Except (List Char) Nat :=
  .ok (PORT env)

/-- Embedding of the first dereference of `COMPILER_URL`, performed by
the `run` handler when it builds the outbound request URL
`format!("{}/run", *COMPILER_URL)`: panics (error) when the variable is
absent. -/
def runRequestUrl (env : Env) : Except (List Char) (List Char) :=
  (COMPILER_URL env).map (fun u => u ++ "/run".data)

/-! ## Definitions written from the specification's words
(for refinement comparisons; these are *not* translated from the
source) -/

/-- Entry-point extraction as claim C1 words it: take everything after
the *first* occurrence of the marker, trim surrounding whitespace,
strip a single trailing `;` *if present*; fail only when the marker is
absent or nothing remains after trimming. -/
def claimedExtract (js : List Char) : Option (List Char) :=
  match firstOcc exportDefaultMarker js with
  | none => none
  | some i =>
    let tail := trimChars (js.drop (i + exportDefaultMarker.length))
    if tail = [] then none
    else
      match stripSuffixChar tail ";".data with
      | some t => some t
      | none => some tail

/-- Entry-point extraction as the amended claim C1 words it: take the
text strictly between the first occurrence of the marker and the next
occurrence after it (or the end of the script when there is no next
occurrence), trim surrounding whitespace, and require and strip a
trailing `;`; fail when the marker is absent or the trimmed text does
not end with `;`. -/
def amendedExtract (js : List Char) : Option (List Char) :=
  match firstOcc exportDefaultMarker js with
  | none => none
  | some i =>
    let rest := js.drop (i + exportDefaultMarker.length)
    let chunk :=
      match firstOcc exportDefaultMarker rest with
      | none => rest
      | some j => rest.take j
    stripSuffixChar (trimChars chunk) ";".data

/-- Startup as claim C7 words it: configuration is read at startup, and
startup fails fast when the backend base URL variable is absent. -/
def claimedStartup (env : Env) : Except (List Char) Nat :=
  (COMPILER_URL env).map (fun _ => PORT env)

/-- The template with the two markers substituted *independently*: the
script substituted verbatim for the template's script marker and the
initialization expression substituted for the template's own
initialization marker (each marker occurs exactly once in the
template) — what the output would be if the two substitutions did not
interact (contrast for claim C9). -/
def indepSubst (js init : List Char) : List Char :=
  tmplA ++ js ++ tmplMid ++ init ++ tmplEnd

/-! ## General lemmas about the string primitives -/

theorem replaceSpec_nil (pat repl : List Char) : replaceSpec pat repl [] = [] := by
  rw [replaceSpec]

theorem replaceSpec_cons (pat repl : List Char) (c : Char) (cs : List Char) :
    replaceSpec pat repl (c :: cs) =
      if pat ≠ [] ∧ pat.isPrefixOf (c :: cs) = true then
        repl ++ replaceSpec pat repl ((c :: cs).drop pat.length)
      else
        c :: replaceSpec pat repl cs := by
  rw [replaceSpec]
  split
  · rfl
  · rfl

theorem splitSpec_nil (sep : List Char) : splitSpec sep [] = [[]] := by
  rw [splitSpec]

theorem splitSpec_cons (sep : List Char) (c : Char) (cs : List Char) :
    splitSpec sep (c :: cs) =
      if sep ≠ [] ∧ sep.isPrefixOf (c :: cs) = true then
        [] :: splitSpec sep ((c :: cs).drop sep.length)
      else
        consHead c (splitSpec sep cs) := by
  rw [splitSpec]
  split
  · rfl
  · rfl

theorem firstOcc_some {pat s : List Char} {i : Nat}
    (h : firstOcc pat s = some i) : pat.isPrefixOf (s.drop i) = true := by
  induction s generalizing i with
  | nil =>
    unfold firstOcc at h
    split at h
    · next hp => cases h; simpa using hp
    · exact absurd h (by simp)
  | cons c cs ih =>
    unfold firstOcc at h
    split at h
    · next hp => cases h; simpa using hp
    · next hp =>
      rcases Option.map_eq_some'.mp h with ⟨j, hj, hji⟩
      subst hji
      rw [List.drop_succ_cons]
      exact ih hj

theorem firstOcc_none {pat s : List Char} (h : firstOcc pat s = none) :
    ∀ i, pat.isPrefixOf (s.drop i) = false := by
  induction s with
  | nil =>
    intro i
    unfold firstOcc at h
    split at h
    · exact absurd h (by simp)
    · next hp =>
      simp only [List.drop_nil]
      exact Bool.not_eq_true _ ▸ hp
  | cons c cs ih =>
    intro i
    unfold firstOcc at h
    split at h
    · exact absurd h (by simp)
    · next hp =>
      have hcs : firstOcc pat cs = none := Option.map_eq_none'.mp h
      match i with
      | 0 => exact Bool.not_eq_true _ ▸ hp
      | i + 1 =>
        rw [List.drop_succ_cons]
        exact ih hcs i

theorem firstOcc_some_le {pat s : List Char} {i : Nat} (hne : pat ≠ [])
    (h : firstOcc pat s = some i) : i + pat.length ≤ s.length := by
  have hp := firstOcc_some h
  have hpre : pat <+: s.drop i := List.isPrefixOf_iff_prefix.mp hp
  have hlen : pat.length ≤ (s.drop i).length := hpre.length_le
  rw [List.length_drop] at hlen
  have hpos : 0 < pat.length := List.length_pos.mpr hne
  omega

theorem replaceGo_eq_replaceSpec (pat repl : List Char) :
    ∀ (fuel : Nat) (s : List Char), s.length ≤ fuel →
      replaceGo pat repl fuel s = replaceSpec pat repl s := by
  intro fuel
  induction fuel with
  | zero =>
    intro s hs
    have hnil : s = [] := List.length_eq_zero.mp (Nat.le_zero.mp hs)
    subst hnil
    rw [replaceSpec_nil]
    rfl
  | succ n ih =>
    intro s hs
    match s with
    | [] => rw [replaceSpec_nil]; rfl
    | c :: cs =>
      rw [replaceGo, replaceSpec_cons]
      simp only [List.length_cons] at hs
      by_cases hc : pat ≠ [] ∧ pat.isPrefixOf (c :: cs) = true
      · rw [if_pos hc, if_pos hc]
        congr 1
        apply ih
        have hpos : 0 < pat.length := List.length_pos.mpr hc.1
        simp only [List.length_drop, List.length_cons]
        omega
      · rw [if_neg hc, if_neg hc]
        congr 1
        exact ih cs (by omega)

theorem replaceAll_eq_replaceSpec (s pat repl : List Char) :
    replaceAll s pat repl = replaceSpec pat repl s :=
  replaceGo_eq_replaceSpec pat repl s.length s (Nat.le_refl _)

theorem splitGo_eq_splitSpec (sep : List Char) :
    ∀ (fuel : Nat) (s : List Char), s.length ≤ fuel →
      splitGo sep fuel s = splitSpec sep s := by
  intro fuel
  induction fuel with
  | zero =>
    intro s hs
    have hnil : s = [] := List.length_eq_zero.mp (Nat.le_zero.mp hs)
    subst hnil
    rw [splitSpec_nil]
    rfl
  | succ n ih =>
    intro s hs
    match s with
    | [] => rw [splitSpec_nil]; rfl
    | c :: cs =>
      rw [splitGo, splitSpec_cons]
      simp only [List.length_cons] at hs
      by_cases hc : sep ≠ [] ∧ sep.isPrefixOf (c :: cs) = true
      · rw [if_pos hc, if_pos hc]
        congr 1
        apply ih
        have hpos : 0 < sep.length := List.length_pos.mpr hc.1
        simp only [List.length_drop, List.length_cons]
        omega
      · rw [if_neg hc, if_neg hc]
        congr 1
        exact ih cs (by omega)

theorem splitSub_eq_splitSpec (sep s : List Char) :
    splitSub sep s = splitSpec sep s :=
  splitGo_eq_splitSpec sep s.length s (Nat.le_refl _)

theorem firstOcc_nil_of_ne {pat : List Char} (hne : pat ≠ []) :
    firstOcc pat [] = none := by
  unfold firstOcc
  rw [if_neg]
  intro hp
  match pat, hne with
  | a :: as, _ => simp [List.isPrefixOf] at hp

theorem replaceSpec_of_firstOcc_none {pat s : List Char} (repl : List Char)
    (h : firstOcc pat s = none) : replaceSpec pat repl s = s := by
  induction s with
  | nil => rw [replaceSpec_nil]
  | cons c cs ih =>
    unfold firstOcc at h
    split at h
    · exact absurd h (by simp)
    · next hp =>
      have hcs : firstOcc pat cs = none := Option.map_eq_none'.mp h
      rw [replaceSpec_cons, if_neg (fun hc => hp hc.2), ih hcs]

theorem replaceSpec_of_firstOcc_some {pat repl s : List Char} {i : Nat}
    (hne : pat ≠ []) (h : firstOcc pat s = some i) :
    replaceSpec pat repl s =
      s.take i ++ repl ++ replaceSpec pat repl (s.drop (i + pat.length)) := by
  induction s generalizing i with
  | nil => rw [firstOcc_nil_of_ne hne] at h; exact absurd h (by simp)
  | cons c cs ih =>
    unfold firstOcc at h
    split at h
    · next hp =>
      cases h
      rw [replaceSpec_cons, if_pos ⟨hne, hp⟩]
      simp
    · next hp =>
      rcases Option.map_eq_some'.mp h with ⟨j, hj, hji⟩
      subst hji
      have harith : j + 1 + pat.length = (j + pat.length) + 1 := by omega
      rw [replaceSpec_cons, if_neg (fun hc => hp hc.2), ih hj, harith,
        List.take_succ_cons, List.drop_succ_cons, List.cons_append,
        List.cons_append]

theorem splitSpec_of_firstOcc_none {sep s : List Char}
    (h : firstOcc sep s = none) : splitSpec sep s = [s] := by
  induction s with
  | nil => rw [splitSpec_nil]
  | cons c cs ih =>
    unfold firstOcc at h
    split at h
    · exact absurd h (by simp)
    · next hp =>
      have hcs : firstOcc sep cs = none := Option.map_eq_none'.mp h
      rw [splitSpec_cons, if_neg (fun hc => hp hc.2), ih hcs]
      rfl

theorem splitSpec_of_firstOcc_some {sep s : List Char} {i : Nat}
    (hne : sep ≠ []) (h : firstOcc sep s = some i) :
    splitSpec sep s = s.take i :: splitSpec sep (s.drop (i + sep.length)) := by
  induction s generalizing i with
  | nil => rw [firstOcc_nil_of_ne hne] at h; exact absurd h (by simp)
  | cons c cs ih =>
    unfold firstOcc at h
    split at h
    · next hp =>
      cases h
      rw [splitSpec_cons, if_pos ⟨hne, hp⟩]
      simp
    · next hp =>
      rcases Option.map_eq_some'.mp h with ⟨j, hj, hji⟩
      subst hji
      have harith : j + 1 + sep.length = (j + sep.length) + 1 := by omega
      rw [splitSpec_cons, if_neg (fun hc => hp hc.2), ih hj, harith,
        List.take_succ_cons, List.drop_succ_cons]
      rfl

theorem prefix_of_prefix_append {pat x y : List Char}
    (h : pat <+: x ++ y) (hlen : pat.length ≤ x.length) : pat <+: x := by
  rcases h with ⟨t, ht⟩
  have htake := congrArg (List.take pat.length) ht
  rw [List.take_append_of_le_length (Nat.le_refl _), List.take_length,
    List.take_append_of_le_length hlen] at htake
  rw [List.prefix_iff_eq_take]
  exact htake

theorem prefix_append_extend {pat x : List Char} (y : List Char)
    (h : pat <+: x) : pat <+: x ++ y :=
  h.trans (List.prefix_append x y)

theorem prefix_append_split {pat u b : List Char}
    (h : pat <+: u ++ b) (hlen : u.length ≤ pat.length) :
    u = pat.take u.length ∧ pat.drop u.length <+: b := by
  rcases h with ⟨t, ht⟩
  constructor
  · have := congrArg (List.take u.length) ht
    rw [List.take_append_of_le_length hlen, List.take_left] at this
    exact this.symm
  · have := congrArg (List.drop u.length) ht
    rw [List.drop_append_of_le_length hlen, List.drop_left] at this
    exact ⟨t, this⟩

theorem replaceSpec_append_of_separated_aux (pat repl : List Char) :
    ∀ (n : Nat) (x y : List Char), x.length ≤ n →
      (∀ i, pat.isPrefixOf ((x ++ y).drop i) = true →
        i + pat.length ≤ x.length ∨ x.length ≤ i) →
      replaceSpec pat repl (x ++ y) =
        replaceSpec pat repl x ++ replaceSpec pat repl y := by
  intro n
  induction n with
  | zero =>
    intro x y hx _
    have hnil : x = [] := List.length_eq_zero.mp (Nat.le_zero.mp hx)
    subst hnil
    rw [replaceSpec_nil]
    rfl
  | succ n ih =>
    intro x y hx hsep
    match x with
    | [] => rw [replaceSpec_nil]; rfl
    | c :: cs =>
      simp only [List.length_cons] at hx
      by_cases hcond : pat ≠ [] ∧ pat.isPrefixOf ((c :: cs) ++ y) = true
      · obtain ⟨hne, hp⟩ := hcond
        have hpos : 0 < pat.length := List.length_pos.mpr hne
        have h0 := hsep 0 (by simpa using hp)
        have hlen : pat.length ≤ cs.length + 1 := by
          simp only [List.length_cons] at h0
          omega
        have hpx : pat <+: (c :: cs) :=
          prefix_of_prefix_append (List.isPrefixOf_iff_prefix.mp hp)
            (by simpa using hlen)
        have hpxb : pat.isPrefixOf (c :: cs) = true :=
          List.isPrefixOf_iff_prefix.mpr hpx
        have hdrop : ((c :: cs) ++ y).drop pat.length =
            (c :: cs).drop pat.length ++ y :=
          List.drop_append_of_le_length (by simpa using hlen)
        have hx' : ((c :: cs).drop pat.length).length ≤ n := by
          simp only [List.length_drop, List.length_cons]
          omega
        have hsep' : ∀ i,
            pat.isPrefixOf (((c :: cs).drop pat.length ++ y).drop i) = true →
            i + pat.length ≤ ((c :: cs).drop pat.length).length ∨
              ((c :: cs).drop pat.length).length ≤ i := by
          intro i hi
          rw [← hdrop, List.drop_drop] at hi
          have := hsep (pat.length + i) hi
          simp only [List.length_drop, List.length_cons] at *
          omega
        calc replaceSpec pat repl ((c :: cs) ++ y)
            = replaceSpec pat repl (c :: (cs ++ y)) := by rw [List.cons_append]
          _ = repl ++ replaceSpec pat repl ((c :: (cs ++ y)).drop pat.length) := by
              rw [replaceSpec_cons, if_pos ⟨hne, by rw [← List.cons_append]; exact hp⟩]
          _ = repl ++ replaceSpec pat repl ((c :: cs).drop pat.length ++ y) := by
              rw [← hdrop, List.cons_append]
          _ = repl ++ (replaceSpec pat repl ((c :: cs).drop pat.length) ++
                replaceSpec pat repl y) := by
              rw [ih _ y hx' hsep']
          _ = replaceSpec pat repl (c :: cs) ++ replaceSpec pat repl y := by
              rw [replaceSpec_cons, if_pos ⟨hne, hpxb⟩, List.append_assoc]
      · have hcx : ¬(pat ≠ [] ∧ pat.isPrefixOf (c :: cs) = true) := by
          rintro ⟨hne, hpx⟩
          exact hcond ⟨hne, List.isPrefixOf_iff_prefix.mpr
            (prefix_append_extend y (List.isPrefixOf_iff_prefix.mp hpx))⟩
        have hsep' : ∀ i, pat.isPrefixOf ((cs ++ y).drop i) = true →
            i + pat.length ≤ cs.length ∨ cs.length ≤ i := by
          intro i hi
          have hdr : ((c :: cs) ++ y).drop (i + 1) = (cs ++ y).drop i := by
            rw [List.cons_append, List.drop_succ_cons]
          have := hsep (i + 1) (by rw [hdr]; exact hi)
          simp only [List.length_cons] at this
          omega
        calc replaceSpec pat repl ((c :: cs) ++ y)
            = replaceSpec pat repl (c :: (cs ++ y)) := by rw [List.cons_append]
          _ = c :: replaceSpec pat repl (cs ++ y) := by
              rw [replaceSpec_cons,
                if_neg (by rw [List.cons_append] at hcond; exact hcond)]
          _ = c :: (replaceSpec pat repl cs ++ replaceSpec pat repl y) := by
              rw [ih cs y (by omega) hsep']
          _ = replaceSpec pat repl (c :: cs) ++ replaceSpec pat repl y := by
              rw [replaceSpec_cons, if_neg hcx, List.cons_append]

theorem replaceSpec_append_of_separated {pat : List Char} (repl : List Char)
    (x y : List Char)
    (hsep : ∀ i, pat.isPrefixOf ((x ++ y).drop i) = true →
      i + pat.length ≤ x.length ∨ x.length ≤ i) :
    replaceSpec pat repl (x ++ y) =
      replaceSpec pat repl x ++ replaceSpec pat repl y :=
  replaceSpec_append_of_separated_aux pat repl x.length x y (Nat.le_refl _) hsep

/-! ## Concrete facts about the template and its markers -/

theorem tmpl_decomposition :
    INDEX_HTML = tmplA ++ jsMarker ++ tmplMid ++ initMarker ++ tmplEnd := rfl

theorem initMarker_ne_nil : initMarker ≠ [] := by decide

theorem firstOcc_initMarker_tmplA : firstOcc initMarker tmplA = none := by decide

theorem tmplA_tail_clean :
    ∀ i, i < tmplA.length → tmplA.length < i + initMarker.length →
      tmplA.drop i ≠ initMarker.take (tmplA.length - i) := by decide

theorem initMarker_drop_not_prefix_tail :
    ∀ r, r < initMarker.length → 0 < r →
      (initMarker.drop r).isPrefixOf (tmplMid ++ initMarker ++ tmplEnd) = false := by
  decide

theorem replaceAll_tmpl (js : List Char) :
    replaceAll INDEX_HTML jsMarker js =
      tmplA ++ (js ++ (tmplMid ++ initMarker ++ tmplEnd)) := rfl

theorem replaceSpec_tmplTail (repl : List Char) :
    replaceSpec initMarker repl (tmplMid ++ initMarker ++ tmplEnd) =
      tmplMid ++ repl ++ tmplEnd := by
  have h := replaceGo_eq_replaceSpec initMarker repl
    (tmplMid ++ initMarker ++ tmplEnd).length (tmplMid ++ initMarker ++ tmplEnd)
    (Nat.le_refl _)
  rw [← h]
  rfl

/-- Splicing a marker-free script into the template and then replacing
the initialization marker touches only the template's own marker. -/
theorem replaceSpec_splice {js : List Char} (repl : List Char)
    (hjs : firstOcc initMarker js = none) :
    replaceSpec initMarker repl
        (tmplA ++ (js ++ (tmplMid ++ initMarker ++ tmplEnd))) =
      tmplA ++ (js ++ (tmplMid ++ repl ++ tmplEnd)) := by
  have hmlen : initMarker.length = 18 := by decide
  have hstep1 : replaceSpec initMarker repl
      (tmplA ++ (js ++ (tmplMid ++ initMarker ++ tmplEnd))) =
      replaceSpec initMarker repl tmplA ++
        replaceSpec initMarker repl (js ++ (tmplMid ++ initMarker ++ tmplEnd)) := by
    apply replaceSpec_append_of_separated
    intro i hi
    by_cases hA : tmplA.length ≤ i
    · exact Or.inr hA
    · push_neg at hA
      by_cases h18 : i + initMarker.length ≤ tmplA.length
      · exact Or.inl h18
      · exfalso
        push_neg at h18
        have hdr : (tmplA ++ (js ++ (tmplMid ++ initMarker ++ tmplEnd))).drop i =
            tmplA.drop i ++ (js ++ (tmplMid ++ initMarker ++ tmplEnd)) :=
          List.drop_append_of_le_length (Nat.le_of_lt hA)
        rw [hdr] at hi
        have hpre : initMarker <+: tmplA.drop i ++
            (js ++ (tmplMid ++ initMarker ++ tmplEnd)) :=
          List.isPrefixOf_iff_prefix.mp hi
        have hulen : (tmplA.drop i).length ≤ initMarker.length := by
          rw [List.length_drop]
          omega
        obtain ⟨hu, _⟩ := prefix_append_split hpre hulen
        rw [List.length_drop] at hu
        exact tmplA_tail_clean i hA h18 hu
  have hstep2 : replaceSpec initMarker repl
      (js ++ (tmplMid ++ initMarker ++ tmplEnd)) =
      replaceSpec initMarker repl js ++
        replaceSpec initMarker repl (tmplMid ++ initMarker ++ tmplEnd) := by
    apply replaceSpec_append_of_separated
    intro i hi
    by_cases hJ : js.length ≤ i
    · exact Or.inr hJ
    · push_neg at hJ
      by_cases h18 : i + initMarker.length ≤ js.length
      · exact Or.inl h18
      · exfalso
        push_neg at h18
        have hdr : (js ++ (tmplMid ++ initMarker ++ tmplEnd)).drop i =
            js.drop i ++ (tmplMid ++ initMarker ++ tmplEnd) :=
          List.drop_append_of_le_length (Nat.le_of_lt hJ)
        rw [hdr] at hi
        have hpre : initMarker <+: js.drop i ++
            (tmplMid ++ initMarker ++ tmplEnd) :=
          List.isPrefixOf_iff_prefix.mp hi
        have hulen : (js.drop i).length ≤ initMarker.length := by
          rw [List.length_drop]
          omega
        obtain ⟨_, hrest⟩ := prefix_append_split hpre hulen
        rw [List.length_drop] at hrest
        have hfalse := initMarker_drop_not_prefix_tail (js.length - i)
          (by omega) (by omega)
        have htrue : (initMarker.drop (js.length - i)).isPrefixOf
            (tmplMid ++ initMarker ++ tmplEnd) = true :=
          List.isPrefixOf_iff_prefix.mpr hrest
        rw [hfalse] at htrue
        exact Bool.false_ne_true htrue
  rw [hstep1, hstep2, replaceSpec_of_firstOcc_none repl firstOcc_initMarker_tmplA,
    replaceSpec_of_firstOcc_none repl hjs, replaceSpec_tmplTail]

/-! ## Occurrence-counting and first-occurrence lemmas for claim C9 -/

theorem countRepl_nil (pat : List Char) : countRepl pat [] = 0 := by
  rw [countRepl]

theorem countRepl_cons (pat : List Char) (c : Char) (cs : List Char) :
    countRepl pat (c :: cs) =
      if pat ≠ [] ∧ pat.isPrefixOf (c :: cs) = true then
        1 + countRepl pat ((c :: cs).drop pat.length)
      else
        countRepl pat cs := by
  rw [countRepl]
  split
  · rfl
  · rfl

theorem firstOcc_some_min {pat s : List Char} {i : Nat}
    (h : firstOcc pat s = some i) :
    ∀ j, j < i → pat.isPrefixOf (s.drop j) = false := by
  induction s generalizing i with
  | nil =>
    unfold firstOcc at h
    split at h
    · cases h
      intro j hj
      exact absurd hj (by omega)
    · exact absurd h (by simp)
  | cons c cs ih =>
    unfold firstOcc at h
    split at h
    · cases h
      intro j hj
      exact absurd hj (by omega)
    · next hp =>
      rcases Option.map_eq_some'.mp h with ⟨j0, hj0, hji⟩
      subst hji
      intro j hj
      match j with
      | 0 => exact Bool.not_eq_true _ ▸ hp
      | j + 1 =>
        rw [List.drop_succ_cons]
        exact ih hj0 j (by omega)

theorem firstOcc_eq_some_of {pat s : List Char} {i : Nat}
    (hocc : pat.isPrefixOf (s.drop i) = true)
    (hmin : ∀ j, j < i → pat.isPrefixOf (s.drop j) = false) :
    firstOcc pat s = some i := by
  induction s generalizing i with
  | nil =>
    match i with
    | 0 =>
      rw [List.drop_zero] at hocc
      unfold firstOcc
      rw [if_pos hocc]
    | i + 1 =>
      have h0 := hmin 0 (by omega)
      rw [List.drop_nil] at hocc
      rw [List.drop_nil] at h0
      rw [hocc] at h0
      exact absurd h0 (by simp)
  | cons c cs ih =>
    match i with
    | 0 =>
      rw [List.drop_zero] at hocc
      unfold firstOcc
      rw [if_pos hocc]
    | i + 1 =>
      have h0 := hmin 0 (by omega)
      rw [List.drop_zero] at h0
      unfold firstOcc
      rw [if_neg (by rw [h0]; simp)]
      have hocc' : pat.isPrefixOf (cs.drop i) = true := by
        rw [← List.drop_succ_cons]
        exact hocc
      have hmin' : ∀ j, j < i → pat.isPrefixOf (cs.drop j) = false := by
        intro j hj
        rw [← List.drop_succ_cons]
        exact hmin (j + 1) (by omega)
      rw [ih hocc' hmin']
      rfl

theorem firstOcc_isSome_of_occ {pat s : List Char} {i : Nat}
    (hocc : pat.isPrefixOf (s.drop i) = true) :
    ∃ j, firstOcc pat s = some j := by
  cases h : firstOcc pat s with
  | none =>
    rw [firstOcc_none h i] at hocc
    exact absurd hocc (by simp)
  | some j => exact ⟨j, rfl⟩

theorem countRepl_pos {pat s : List Char} {i : Nat} (hne : pat ≠ [])
    (h : firstOcc pat s = some i) : 1 ≤ countRepl pat s := by
  induction s generalizing i with
  | nil => rw [firstOcc_nil_of_ne hne] at h; exact absurd h (by simp)
  | cons c cs ih =>
    unfold firstOcc at h
    split at h
    · next hp =>
      rw [countRepl_cons, if_pos ⟨hne, hp⟩]
      omega
    · next hp =>
      rcases Option.map_eq_some'.mp h with ⟨j, hj, _⟩
      rw [countRepl_cons, if_neg (fun hc => hp hc.2)]
      exact ih hj

theorem replaceSpec_length_aux (pat repl : List Char) :
    ∀ (n : Nat) (s : List Char), s.length ≤ n →
      (replaceSpec pat repl s).length + countRepl pat s * pat.length =
        s.length + countRepl pat s * repl.length := by
  intro n
  induction n with
  | zero =>
    intro s hs
    have hnil : s = [] := List.length_eq_zero.mp (Nat.le_zero.mp hs)
    subst hnil
    rw [replaceSpec_nil, countRepl_nil]
    simp
  | succ n ih =>
    intro s hs
    match s with
    | [] =>
      rw [replaceSpec_nil, countRepl_nil]
      simp
    | c :: cs =>
      simp only [List.length_cons] at hs
      rw [replaceSpec_cons, countRepl_cons]
      by_cases hc : pat ≠ [] ∧ pat.isPrefixOf (c :: cs) = true
      · rw [if_pos hc, if_pos hc]
        have hpos : 0 < pat.length := List.length_pos.mpr hc.1
        have hple : pat.length ≤ cs.length + 1 :=
          (List.isPrefixOf_iff_prefix.mp hc.2).length_le
        have hih := ih ((c :: cs).drop pat.length) (by
          simp only [List.length_drop, List.length_cons]
          omega)
        have he1 : (1 + countRepl pat ((c :: cs).drop pat.length)) * pat.length =
            pat.length + countRepl pat ((c :: cs).drop pat.length) * pat.length := by
          rw [Nat.add_mul, Nat.one_mul]
        have he2 : (1 + countRepl pat ((c :: cs).drop pat.length)) * repl.length =
            repl.length + countRepl pat ((c :: cs).drop pat.length) * repl.length := by
          rw [Nat.add_mul, Nat.one_mul]
        simp only [List.length_append, List.length_drop, List.length_cons] at *
        omega
      · rw [if_neg hc, if_neg hc]
        have hih := ih cs (by omega)
        simp only [List.length_cons]
        omega

theorem replaceSpec_length (pat repl s : List Char) :
    (replaceSpec pat repl s).length + countRepl pat s * pat.length =
      s.length + countRepl pat s * repl.length :=
  replaceSpec_length_aux pat repl s.length s (Nat.le_refl _)

/-- The first occurrence of the initialization marker in the template
spliced with a script whose first marker occurrence is at `k` lies at
position `tmplA.length + k`: the template's prefix contains no
occurrence and no occurrence can straddle the prefix-script boundary. -/
theorem firstOcc_spliced {js : List Char} {k : Nat}
    (hmark : firstOcc initMarker js = some k) :
    firstOcc initMarker
        (tmplA ++ (js ++ (tmplMid ++ initMarker ++ tmplEnd))) =
      some (tmplA.length + k) := by
  have hne := initMarker_ne_nil
  have hk18 : k + initMarker.length ≤ js.length := firstOcc_some_le hne hmark
  apply firstOcc_eq_some_of
  · have hdr : (tmplA ++ (js ++ (tmplMid ++ initMarker ++ tmplEnd))).drop
        (tmplA.length + k) = js.drop k ++ (tmplMid ++ initMarker ++ tmplEnd) := by
      rw [List.drop_append, List.drop_append_of_le_length (by omega)]
    rw [hdr]
    exact List.isPrefixOf_iff_prefix.mpr
      (prefix_append_extend _ (List.isPrefixOf_iff_prefix.mp (firstOcc_some hmark)))
  · intro j hj
    by_cases hjA : j < tmplA.length
    · have hdr : (tmplA ++ (js ++ (tmplMid ++ initMarker ++ tmplEnd))).drop j =
          tmplA.drop j ++ (js ++ (tmplMid ++ initMarker ++ tmplEnd)) :=
        List.drop_append_of_le_length (Nat.le_of_lt hjA)
      rw [hdr]
      match hB : initMarker.isPrefixOf
          (tmplA.drop j ++ (js ++ (tmplMid ++ initMarker ++ tmplEnd))) with
      | false => rfl
      | true =>
        exfalso
        have hpre := List.isPrefixOf_iff_prefix.mp hB
        by_cases hspan : j + initMarker.length ≤ tmplA.length
        · have hin : initMarker <+: tmplA.drop j :=
            prefix_of_prefix_append hpre (by
              simp only [List.length_drop]
              omega)
          have := firstOcc_none firstOcc_initMarker_tmplA j
          rw [List.isPrefixOf_iff_prefix.mpr hin] at this
          exact absurd this (by simp)
        · have hulen : (tmplA.drop j).length ≤ initMarker.length := by
            simp only [List.length_drop]
            omega
          obtain ⟨hu, _⟩ := prefix_append_split hpre hulen
          rw [List.length_drop] at hu
          exact tmplA_tail_clean j hjA (by omega) hu
    · push_neg at hjA
      have hj' : j = tmplA.length + (j - tmplA.length) := by omega
      have hjk : j - tmplA.length < k := by omega
      rw [hj', List.drop_append,
        List.drop_append_of_le_length (by omega : j - tmplA.length ≤ js.length)]
      match hB : initMarker.isPrefixOf
          (js.drop (j - tmplA.length) ++ (tmplMid ++ initMarker ++ tmplEnd)) with
      | false => rfl
      | true =>
        exfalso
        have hpre := List.isPrefixOf_iff_prefix.mp hB
        have hin : initMarker <+: js.drop (j - tmplA.length) :=
          prefix_of_prefix_append hpre (by
            simp only [List.length_drop]
            omega)
        have := firstOcc_some_min hmark (j - tmplA.length) hjk
        rw [List.isPrefixOf_iff_prefix.mpr hin] at this
        exact absurd this (by simp)

/-- The tail of the spliced text after the script's marker always
contains the template's own initialization marker, so its replacement
count is positive. -/
theorem firstOcc_tailTemplate (d : List Char) :
    ∃ j, firstOcc initMarker (d ++ (tmplMid ++ initMarker ++ tmplEnd)) = some j := by
  apply firstOcc_isSome_of_occ (i := d.length + tmplMid.length)
  have hdr : (d ++ (tmplMid ++ initMarker ++ tmplEnd)).drop
      (d.length + tmplMid.length) = initMarker ++ tmplEnd := by
    rw [List.drop_append, List.append_assoc, List.drop_left]
  rw [hdr]
  exact List.isPrefixOf_iff_prefix.mpr (List.prefix_append _ _)

/-- The initialization expression is always strictly longer than the
initialization marker (18 characters): it contains at least the fixed
wrapper (26 characters) and the bracketed byte list (at least 2). -/
theorem initExpr_length_gt (fn : List Char) (wasm : List Nat) :
    18 < (initExpr fn wasm).length := by
  have h3 : 2 ≤ (fmtWasm wasm).length := by
    simp only [fmtWasm, List.length_cons, List.length_append, List.length_nil]
    omega
  simp only [initExpr, List.length_append, List.length_cons, List.length_nil]
  omega

/-! ## Claim theorems -/

/-- Claim C1, counterexample: on the script `"export default f"` (marker
present, identifier present, but no trailing `;`), the extraction rule
as the claim states it succeeds with identifier `f`, while the
assembler's extraction fails (`strip_suffix(";")` *requires* the
terminator). -/
theorem c1_counterexample :
    claimedExtract "export default f".data = some "f".data ∧
    extractInitFn "export default f".data = none := by
  constructor
  · decide
  · decide

/-- Claim C1, amended: the assembler locates the entry-point identifier
by taking the text strictly between the first occurrence of the literal
marker `"export default"` and the next occurrence after it (or the end
of the script when the marker occurs only once), trimming surrounding
whitespace, and requiring and stripping a trailing statement terminator
`";"`; it fails when the marker is absent or when the trimmed text does
not end with the terminator (in particular when nothing remains). -/
theorem c1_amended (js : List Char) : extractInitFn js = amendedExtract js := by
  have hne : exportDefaultMarker ≠ [] := by decide
  unfold extractInitFn amendedExtract
  rw [splitSub_eq_splitSpec]
  cases h1 : firstOcc exportDefaultMarker js with
  | none =>
    rw [splitSpec_of_firstOcc_none h1]
    rfl
  | some i =>
    rw [splitSpec_of_firstOcc_some hne h1]
    cases h2 : firstOcc exportDefaultMarker (js.drop (i + exportDefaultMarker.length)) with
    | none =>
      rw [splitSpec_of_firstOcc_none h2]
      simp only [List.getElem?_cons_succ, List.getElem?_cons_zero,
        Option.some_bind, h2]
    | some j =>
      rw [splitSpec_of_firstOcc_some hne h2]
      simp only [List.getElem?_cons_succ, List.getElem?_cons_zero,
        Option.some_bind, h2]

/-- Witness for the amended claim C1 at a script with two marker
occurrences (both extractions yield the identifier text of the chunk
between the two occurrences). -/
theorem c1_amended_witness :
    extractInitFn "export default a; export default b;".data =
      amendedExtract "export default a; export default b;".data ∧
    extractInitFn "export default a; export default b;".data = some "a".data :=
  ⟨c1_amended "export default a; export default b;".data, by decide⟩

/-- Claim C2, counterexample: for the script
`"/*INIT_GOES_HERE*/ export default f;"` (which contains the
entry-point marker followed by a well-formed statement) and module
bytes `[1, 2, 3]`, assembly succeeds but its output does *not* contain
the original script text: the initialization marker inside the spliced
script was replaced as well. -/
theorem c2_counterexample :
    assemble (.Output [] "/*INIT_GOES_HERE*/ export default f;".data [1, 2, 3]) =
      .ok (replaceAll
        (replaceAll INDEX_HTML jsMarker
          "/*INIT_GOES_HERE*/ export default f;".data)
        initMarker (initExpr "f".data [1, 2, 3])) ∧
    ¬ ("/*INIT_GOES_HERE*/ export default f;".data <:+:
        replaceAll
          (replaceAll INDEX_HTML jsMarker
            "/*INIT_GOES_HERE*/ export default f;".data)
          initMarker (initExpr "f".data [1, 2, 3])) := by
  constructor
  · rfl
  · decide

/-- Claim C2, amended: for every valid `Output` response whose script
contains the entry-point marker followed by a well-formed statement
*and does not itself contain the initialization marker*, `assemble`
produces HTML containing exactly the original script text and an
initialization call referencing the extracted identifier; in
particular, for script `"function f(){} export default f;"` and module
bytes `[1, 2, 3]` (the scenario, covered by the witness) the output
HTML contains the literal script and the initialization expression
`f((new Int8Array([1, 2, 3])).buffer)`. -/
theorem c2_amended (ih js : List Char) (wasm : List Nat) (fn : List Char)
    (hfn : extractInitFn js = some fn)
    (hclean : firstOcc initMarker js = none) :
    assemble (.Output ih js wasm) =
      .ok (tmplA ++ js ++ tmplMid ++ initExpr fn wasm ++ tmplEnd) ∧
    js <:+: tmplA ++ js ++ tmplMid ++ initExpr fn wasm ++ tmplEnd ∧
    initExpr fn wasm <:+: tmplA ++ js ++ tmplMid ++ initExpr fn wasm ++ tmplEnd := by
  refine ⟨?_, ⟨tmplA, tmplMid ++ initExpr fn wasm ++ tmplEnd, by
    simp [List.append_assoc]⟩, ⟨tmplA ++ js ++ tmplMid, tmplEnd, by
    simp [List.append_assoc]⟩⟩
  simp only [assemble, hfn]
  rw [replaceAll_tmpl js, replaceAll_eq_replaceSpec,
    replaceSpec_splice (initExpr fn wasm) hclean]
  simp [List.append_assoc]

/-- Witness for the amended claim C2 at the specification's success
scenario. -/
theorem c2_amended_witness :
    assemble (.Output [] "function f(){} export default f;".data [1, 2, 3]) =
      .ok (tmplA ++ "function f(){} export default f;".data ++ tmplMid ++
        initExpr "f".data [1, 2, 3] ++ tmplEnd) :=
  (c2_amended [] "function f(){} export default f;".data [1, 2, 3] "f".data
    (by decide) (by decide)).1

/-- Claim C3: for every `Output` response whose script lacks the
entry-point marker, extraction finds nothing and `assemble` fails with
the malformed-script error (the specification's `MalformedScriptError`)
and produces no HTML: the result is the error alone. -/
theorem c3_missing_marker (ih js : List Char) (wasm : List Nat)
    (h : firstOcc exportDefaultMarker js = none) :
    extractInitFn js = none ∧
    assemble (.Output ih js wasm) = .error (.Unknown malformedScriptMsg) := by
  have hext : extractInitFn js = none := by
    unfold extractInitFn
    rw [splitSub_eq_splitSpec, splitSpec_of_firstOcc_none h]
    rfl
  exact ⟨hext, by simp only [assemble, hext]⟩

/-- Witness for claim C3 at the specification's malformed scenario
(script `"function f(){}"`). -/
theorem c3_witness :
    assemble (.Output [] "function f(){}".data [1, 2, 3]) =
      .error (.Unknown malformedScriptMsg) :=
  (c3_missing_marker [] "function f(){}".data [1, 2, 3] (by decide)).2

/-- Claim C4: for every `CompileError` response, `assemble` returns the
message text unchanged (byte for byte, with no escaping) as the HTML
body. -/
theorem c4_compile_error (e : List Char) : assemble (.CompileError e) = .ok e :=
  rfl

/-- Witness for claim C4 at the specification's compile-error scenario
(`"syntax error on line 3"`). -/
theorem c4_witness :
    assemble (.CompileError "syntax error on line 3".data) =
      .ok "syntax error on line 3".data :=
  c4_compile_error "syntax error on line 3".data

/-- Claim C5: on every non-success status whose body text reads
successfully, the handler fails with the backend error
(`ApiError::Unknown`, the specification's `BackendError`) whose message
is the fixed diagnostic text followed by the body text — the body text
is carried byte for byte (it is a suffix of the carried message). -/
theorem c5_backend_error (dec : List Nat → Except (List Char) Response)
    (r : CompilerReply) (t : List Char)
    (hstatus : r.statusOk = false) (htext : r.textBody = .ok t) :
    handleReply dec r = .err (.Unknown (compilerErrMsg t)) ∧
    t <:+ compilerErrMsg t := by
  constructor
  · simp [handleReply, hstatus, htext]
  · exact List.suffix_append "Compiler service returned an error: ".data t

/-- Witness for claim C5 at the specification's backend-error scenario
(HTTP 500 with body `"internal compiler error"`). -/
theorem c5_witness :
    handleReply (fun _ => Except.error [])
        ⟨false, .ok "internal compiler error".data, .ok []⟩ =
      .err (.Unknown (compilerErrMsg "internal compiler error".data)) :=
  (c5_backend_error (fun _ => Except.error [])
    ⟨false, .ok "internal compiler error".data, .ok []⟩
    "internal compiler error".data rfl rfl).1

/-- Claim C6: on every success-status reply whose bytes read
successfully but do not decode as a `Response`, the handler fails with
the decode error (`ApiError::BsonDeserializeError`, the specification's
`DecodeError`), and that variant is distinct from the `Unknown` variant
used for non-success statuses, so a caller can distinguish the two
failure kinds. -/
theorem c6_decode_error (dec : List Nat → Except (List Char) Response)
    (r : CompilerReply) (bs : List Nat) (e : List Char)
    (hstatus : r.statusOk = true) (hbytes : r.bytesBody = .ok bs)
    (hdec : dec bs = .error e) :
    handleReply dec r = .err (.BsonDeserializeError e) ∧
    (∀ m m' : List Char, ApiError.BsonDeserializeError m ≠ ApiError.Unknown m') := by
  constructor
  · simp [handleReply, hstatus, hbytes, hdec]
  · intro m m' hcontra
    exact ApiError.noConfusion hcontra

/-- Witness for claim C6 on a concrete undecodable payload. -/
theorem c6_witness :
    handleReply (fun _ => Except.error "invalid bson".data)
        ⟨true, .ok [], .ok [7]⟩ =
      .err (.BsonDeserializeError "invalid bson".data) :=
  (c6_decode_error (fun _ => Except.error "invalid bson".data)
    ⟨true, .ok [], .ok [7]⟩ [7] "invalid bson".data rfl rfl rfl).1

/-- Claim C7, counterexample: with both environment variables absent,
the startup behaviour the claim describes fails fast on account of the
missing `COMPILER_URL`, but the program's startup succeeds (binding
port 3000 and serving): the `lazy_static` value is only initialized at
its first dereference, which happens inside the request handler, not at
startup. -/
theorem c7_counterexample :
    claimedStartup ⟨none, none⟩ = .error "COMPILER_URL must be set".data ∧
    mainStartup ⟨none, none⟩ = .ok 3000 :=
  ⟨rfl, rfl⟩

/-- Claim C7, amended: the inbound listener port is read at startup and
falls back to 3000 when the `PORT` variable is absent or unparsable;
the required backend base URL is *not* read at startup — it is lazily
initialized at its first dereference inside the request handler, so
when `COMPILER_URL` is absent, startup still succeeds (and serving
begins) and the first request's handler panics instead. -/
theorem c7_amended (env : Env) :
    mainStartup env = .ok (PORT env) ∧
    (env.port = none → mainStartup env = .ok 3000) ∧
    (∀ s, env.port = some s → parseU16 s = none → mainStartup env = .ok 3000) ∧
    (env.compilerUrl = none →
      mainStartup env = .ok (PORT env) ∧
      runRequestUrl env = .error "COMPILER_URL must be set".data) := by
  refine ⟨rfl, ?_, ?_, ?_⟩
  · intro h
    simp only [mainStartup, PORT, h, Option.none_bind, Option.getD_none]
  · intro s hs hp
    simp only [mainStartup, PORT, hs, Option.some_bind, hp, Option.getD_none]
  · intro h
    refine ⟨rfl, ?_⟩
    simp only [runRequestUrl, COMPILER_URL, h]
    rfl

/-- Witness for the amended claim C7: with `PORT` set to an unparsable
value and `COMPILER_URL` absent, startup succeeds on port 3000 while
the handler's first dereference of the backend URL panics. -/
theorem c7_amended_witness :
    mainStartup ⟨some "abc".data, none⟩ = .ok 3000 ∧
    runRequestUrl ⟨some "abc".data, none⟩ =
      .error "COMPILER_URL must be set".data :=
  ⟨(c7_amended ⟨some "abc".data, none⟩).2.2.1 "abc".data rfl (by decide),
   ((c7_amended ⟨some "abc".data, none⟩).2.2.2 rfl).2⟩

/-- Claim C8: the HTML template is a process-wide constant containing
each of the two substitution markers exactly once, and on every
successfully extracted entry point the assembler produces its output by
plain textual substitution (`replace`) of the two markers, with no
escaping. -/
theorem c8_template_markers :
    countOcc jsMarker INDEX_HTML = 1 ∧
    countOcc initMarker INDEX_HTML = 1 ∧
    (∀ (ih js : List Char) (wasm : List Nat) (fn : List Char),
      extractInitFn js = some fn →
      assemble (.Output ih js wasm) =
        .ok (replaceAll (replaceAll INDEX_HTML jsMarker js) initMarker
          (initExpr fn wasm))) := by
  refine ⟨by decide, by decide, ?_⟩
  intro ih js wasm fn hfn
  simp only [assemble, hfn]

/-- Witness for claim C8's substitution clause at the success
scenario. -/
theorem c8_witness :
    assemble (.Output [] "function f(){} export default f;".data [1, 2, 3]) =
      .ok (replaceAll
        (replaceAll INDEX_HTML jsMarker "function f(){} export default f;".data)
        initMarker (initExpr "f".data [1, 2, 3])) :=
  c8_template_markers.2.2 [] "function f(){} export default f;".data [1, 2, 3]
    "f".data (by decide)

/-- Claim C9: marker substitution replaces every occurrence of the
pattern in the text being processed (first conjunct: after the leftmost
occurrence, replacement continues in the remainder, for every pattern,
replacement and text), and the script is spliced in before the
initialization marker is replaced; therefore, for every `Output`
response whose script itself contains the literal `"/*INIT_GOES_HERE*/"`
(first occurrence at position `k`) and whose entry point extracts, the
generated initialization expression is also substituted at that
position inside the spliced script — the output is the template head,
then the script up to `k`, then the initialization expression, then the
processed remainder — and the output is never the template with two
independent substitutions. -/
theorem c9_marker_interaction :
    (∀ (s repl pat : List Char) (i : Nat), pat ≠ [] → firstOcc pat s = some i →
      replaceAll s pat repl =
        s.take i ++ repl ++ replaceAll (s.drop (i + pat.length)) pat repl) ∧
    (∀ (ih js : List Char) (wasm : List Nat) (fn : List Char) (k : Nat),
      extractInitFn js = some fn →
      firstOcc initMarker js = some k →
      assemble (.Output ih js wasm) =
        .ok (tmplA ++ js.take k ++ initExpr fn wasm ++
          replaceAll (js.drop (k + initMarker.length) ++
            (tmplMid ++ initMarker ++ tmplEnd)) initMarker (initExpr fn wasm)) ∧
      assemble (.Output ih js wasm) ≠
        .ok (indepSubst js (initExpr fn wasm))) := by
  constructor
  · intro s repl pat i hne h
    rw [replaceAll_eq_replaceSpec, replaceAll_eq_replaceSpec,
      replaceSpec_of_firstOcc_some hne h]
  · intro ih js wasm fn k hfn hmark
    have hne := initMarker_ne_nil
    have hk18 : k + initMarker.length ≤ js.length := firstOcc_some_le hne hmark
    have heq : assemble (.Output ih js wasm) =
        .ok (tmplA ++ js.take k ++ initExpr fn wasm ++
          replaceAll (js.drop (k + initMarker.length) ++
            (tmplMid ++ initMarker ++ tmplEnd)) initMarker (initExpr fn wasm)) := by
      simp only [assemble, hfn]
      rw [replaceAll_tmpl js, replaceAll_eq_replaceSpec,
        replaceSpec_of_firstOcc_some hne (firstOcc_spliced hmark)]
      have htake : (tmplA ++ (js ++ (tmplMid ++ initMarker ++ tmplEnd))).take
          (tmplA.length + k) = tmplA ++ js.take k := by
        rw [List.take_append, List.take_append_of_le_length (by omega)]
      have hdrop : (tmplA ++ (js ++ (tmplMid ++ initMarker ++ tmplEnd))).drop
          (tmplA.length + k + initMarker.length) =
          js.drop (k + initMarker.length) ++ (tmplMid ++ initMarker ++ tmplEnd) := by
        rw [Nat.add_assoc, List.drop_append,
          List.drop_append_of_le_length hk18]
      rw [htake, hdrop, ← replaceAll_eq_replaceSpec]
    refine ⟨heq, ?_⟩
    intro hcontra
    rw [heq] at hcontra
    have hbig := Except.ok.inj hcontra
    have hlen := congrArg List.length hbig
    rw [replaceAll_eq_replaceSpec] at hlen
    have hLrest := replaceSpec_length initMarker (initExpr fn wasm)
      (js.drop (k + initMarker.length) ++ (tmplMid ++ initMarker ++ tmplEnd))
    obtain ⟨j, hj⟩ := firstOcc_tailTemplate (js.drop (k + initMarker.length))
    have hm := countRepl_pos hne hj
    have hml : initMarker.length = 18 := by decide
    have hr : 18 < (initExpr fn wasm).length := initExpr_length_gt fn wasm
    have hbridge := Nat.mul_le_mul_left
      (countRepl initMarker (js.drop (k + initMarker.length) ++
        (tmplMid ++ initMarker ++ tmplEnd)))
      (by omega : 19 ≤ (initExpr fn wasm).length)
    rw [hml] at hlen hLrest hm hbridge hk18
    have hmink : min k js.length = k := Nat.min_eq_left (by omega)
    simp only [indepSubst, List.length_append, List.length_take, List.length_drop,
      hmink] at hlen
    simp only [List.length_append, List.length_drop] at hLrest
    omega

/-- Witness for claim C9: the every-occurrence clause applied at a
concrete text with an interior marker occurrence, and the
substitution-inside-script clause applied at a concrete
marker-containing script and concrete module bytes. -/
theorem c9_witness :
    replaceAll "ab/*INIT_GOES_HERE*/cd".data initMarker "X".data =
      ("ab/*INIT_GOES_HERE*/cd".data).take 2 ++ "X".data ++
        replaceAll (("ab/*INIT_GOES_HERE*/cd".data).drop (2 + initMarker.length))
          initMarker "X".data ∧
    assemble (.Output [] "/*INIT_GOES_HERE*/ export default f;".data [1, 2, 3]) =
      .ok (tmplA ++ ("/*INIT_GOES_HERE*/ export default f;".data).take 0 ++
        initExpr "f".data [1, 2, 3] ++
        replaceAll (("/*INIT_GOES_HERE*/ export default f;".data).drop
            (0 + initMarker.length) ++ (tmplMid ++ initMarker ++ tmplEnd))
          initMarker (initExpr "f".data [1, 2, 3])) :=
  ⟨c9_marker_interaction.1 "ab/*INIT_GOES_HERE*/cd".data "X".data initMarker 2
    (by decide) (by decide),
   (c9_marker_interaction.2 [] "/*INIT_GOES_HERE*/ export default f;".data
      [1, 2, 3] "f".data 0 (by decide) (by decide)).1⟩

/-- Claim C10: in the non-success-status branch the handler `unwrap`s
the body-text read: when that read fails the handler panics instead of
returning a typed error, and when it succeeds the branch returns the
backend error — the error branch is safe only under the precondition
that the body text reads successfully. -/
theorem c10_unwrap_text (dec : List Nat → Except (List Char) Response)
    (r : CompilerReply) (hstatus : r.statusOk = false) :
    (∀ e, r.textBody = .error e → handleReply dec r = .panicked) ∧
    (∀ t, r.textBody = .ok t →
      handleReply dec r = .err (.Unknown (compilerErrMsg t))) := by
  constructor
  · intro e he
    simp [handleReply, hstatus, he]
  · intro t ht
    simp [handleReply, hstatus, ht]

/-- Witness for claim C10: a failed body-text read on a non-success
status makes the handler panic. -/
theorem c10_witness :
    handleReply (fun _ => Except.error [])
        ⟨false, .error "connection reset".data, .ok []⟩ = .panicked :=
  (c10_unwrap_text (fun _ => Except.error [])
    ⟨false, .error "connection reset".data, .ok []⟩ rfl).1
    "connection reset".data rfl

end YP
